import Mathlib

/-!
Verification of the portfolio valuation and reconciliation model of the
Smart Finance Portfolio Tracker (src/finance.py), via a shallow embedding
of the relevant parts of the source into Lean.

Numbers are modelled as rationals (`ℚ`); the pandas float semantics of the
one division in the source (`pnl / investment`) is modelled by `PFloat`,
which carries the non-finite results (NaN, ±inf) that pandas produces on
division by zero.  Dates are modelled as integers (day numbers); the
provider (yfinance / Yahoo search HTTP endpoint) is modelled as explicit
data passed in, with `Option`/`Except` capturing provider failure.
-/

namespace FinanceTracker

/-- One portfolio record, exactly the dict built in the Add-to-Portfolio
handler of src/finance.py (lines 216-224): `symbol`, `name`, `quantity`,
`buy_price`, `buy_date` (already an ISO-8601 string in the record),
`current_price`, `exchange`. -/
structure Holding where
  symbol : String
  name : String
  quantity : Int
  buy_price : ℚ
  buy_date : String
  current_price : ℚ
  exchange : String
deriving DecidableEq, Repr

/-- Pandas/NumPy float value as far as the source's arithmetic needs:
a finite rational, NaN, or a signed infinity.  Division by zero in pandas
does not raise; it yields NaN (0/0) or ±inf (x/0, x ≠ 0). -/
inductive PFloat where
  | finite (q : ℚ)
  | nan
  | posInf
  | negInf
deriving DecidableEq, Repr

/-- Division with pandas float semantics: total, never faults. -/
def pdiv (x y : ℚ) : PFloat :=
  if y = 0 then
    if x = 0 then .nan
    else if 0 < x then .posInf
    else .negInf
  else .finite (x / y)

/-- Multiplication of a pandas float by a rational constant
(used for the `* 100` in the pnl percentage). -/
def PFloat.mulConst : PFloat → ℚ → PFloat
  | .finite q, c => .finite (q * c)
  | .nan, _ => .nan
  | .posInf, c => if 0 < c then .posInf else if c < 0 then .negInf else .nan
  | .negInf, c => if 0 < c then .negInf else if c < 0 then .posInf else .nan

/-- Derived analytics row, one per holding (src/finance.py lines 258-261),
recomputed on every render and never stored. -/
structure DerivedRow where
  investment : ℚ
  current_value : ℚ
  pnl : ℚ
  pnl_pct : PFloat
deriving DecidableEq, Repr

/-- The derived metrics of one holding, exactly the column arithmetic of
src/finance.py lines 258-261:
`investment = quantity * buy_price`,
`current_value = quantity * current_price`,
`pnl = current_value - investment`,
`pnl_pct = (pnl / investment) * 100` (pandas division, unguarded). -/
def computeRow (h : Holding) : DerivedRow :=
  let investment : ℚ := (h.quantity : ℚ) * h.buy_price
  let current_value : ℚ := (h.quantity : ℚ) * h.current_price
  let pnl : ℚ := current_value - investment
  let pnl_pct : PFloat := (pdiv pnl investment).mulConst 100
  ⟨investment, current_value, pnl, pnl_pct⟩

/-- The derived analytics table: the row arithmetic applied row-wise, in
input order (pandas applies it column-wise over the whole frame, which is
the same thing row-wise). -/
def computeRows (hs : List Holding) : List DerivedRow :=
  hs.map computeRow

/-- The price refresh loop of src/finance.py lines 238-251: for each
holding, look the spot price up; on success, append a copy of the holding
with `current_price` replaced; on failure (exception or no data), append
the holding unchanged.  The lookup is modelled as a function to
`Option ℚ`, `none` covering both a raised exception and missing data. -/
def refresh_prices (hs : List Holding) (lookup : String → Option ℚ) :
    List Holding :=
  hs.map fun h =>
    match lookup h.symbol with
    | some p => { h with current_price := p }
    | none => h

/-- The Remove-Selected-Stock handler of src/finance.py lines 288-297.
The parsed index is an `Int` (the label prefix minus one); the handler
performs the removal, saves, and reports success only when
`0 <= selected_index < len(portfolio)`, and otherwise does nothing.
Result: the portfolio after the handler, paired with whether the removal
was performed (the `st.success` path). -/
def removeSelected (portfolio : List Holding) (selected_index : Int) :
    List Holding × Bool :=
  if 0 ≤ selected_index ∧ selected_index < (portfolio.length : Int) then
    (((portfolio.enum).filter
        fun p => (p.1 : Int) ≠ selected_index).map Prod.snd, true)
  else (portfolio, false)

/-- The Add-to-Portfolio button handler of src/finance.py lines 211-226:
`if not ticker_symbol` (the falsy check, i.e. empty string) it shows an
error and changes nothing; otherwise it appends the new record to a copy
of the portfolio and saves.  No other field of the record is validated in
the handler.  Result: the portfolio after the handler, paired with whether
the append was performed. -/
def addToPortfolio (portfolio : List Holding) (record : Holding) :
    List Holding × Bool :=
  if record.symbol = "" then (portfolio, false)
  else (portfolio ++ [record], true)

/-- Model of `yf.download(ticker, start, end, interval="1d")`: the
provider's full daily series (date, close), restricted to the half-open
date range [start, stop). -/
def yf_download (hist : List (Int × ℚ)) (start stop : Int) :
    List (Int × ℚ) :=
  hist.filter fun s => start ≤ s.1 ∧ s.1 < stop

/-- `get_historical_price` of src/finance.py lines 79-100: download the
window from `date - 7` (inclusive) to `date + 1` (exclusive), keep the
sessions with index `<= date`, and return the last Close; return `none`
when the window is empty or the provider raised (`provider = none`). -/
def get_historical_price (provider : Option (List (Int × ℚ)))
    (date : Int) : Option ℚ :=
  match provider with
  | none => none
  | some hist =>
    let data := yf_download hist (date - 7) (date + 1)
    if !data.isEmpty then
      let data := data.filter fun s => s.1 ≤ date
      if !data.isEmpty then
        match data.getLast? with
        | some s => some s.2
        | none => none
      else none
    else none

/-- Portfolio-level aggregates. -/
structure Totals where
  total_investment : ℚ
  total_current_value : ℚ
  total_pnl : ℚ
  total_pnl_pct : ℚ
deriving DecidableEq, Repr

/-- Modelled from the spec: `aggregate` (spec §4.2) is not implemented in
src/finance.py (the source renders per-row metrics only); per the spec it
sums across rows and computes
`total_pnl_pct = total_pnl / total_investment * 100`, defined as 0 when
`total_investment = 0` (the empty-portfolio guard). -/
def aggregate (rows : List DerivedRow) : Totals :=
  let ti := (rows.map DerivedRow.investment).sum
  let tc := (rows.map DerivedRow.current_value).sum
  let tp := (rows.map DerivedRow.pnl).sum
  { total_investment := ti
    total_current_value := tc
    total_pnl := tp
    total_pnl_pct := if ti = 0 then 0 else tp / ti * 100 }

/-- The JSON data model as `json.dumps`/`json.loads` see it, with Python's
int/float distinction kept (`quantity` is an int in the record, the prices
are floats, modelled as rationals). -/
inductive Json where
  | str (s : String)
  | int (n : Int)
  | num (q : ℚ)
  | arr (l : List Json)
  | obj (l : List (String × Json))

/-- Serialization of one Holding record: the JSON object with the fields
in the insertion order of the dict built at src/finance.py lines 216-224
(`json.dumps` preserves dict insertion order). -/
def holdingToJson (h : Holding) : Json :=
  .obj [("symbol", .str h.symbol), ("name", .str h.name),
        ("quantity", .int h.quantity), ("buy_price", .num h.buy_price),
        ("buy_date", .str h.buy_date),
        ("current_price", .num h.current_price),
        ("exchange", .str h.exchange)]

/-- Deserialization of one Holding record from its JSON object;
`none` on any shape mismatch. -/
def holdingFromJson : Json → Option Holding
  | .obj [("symbol", .str s), ("name", .str n), ("quantity", .int q),
          ("buy_price", .num bp), ("buy_date", .str bd),
          ("current_price", .num cp), ("exchange", .str ex)] =>
    some ⟨s, n, q, bp, bd, cp, ex⟩
  | _ => none

/-- `save_portfolio` (src/finance.py lines 29-32) serializes the whole
portfolio with `json.dumps`: one JSON array of Holding records. -/
def serializePortfolio (hs : List Holding) : Json :=
  .arr (hs.map holdingToJson)

/-- `load_portfolio` (src/finance.py lines 17-27) restores the portfolio
with `json.loads` from the persisted JSON array; `none` on any shape
mismatch. -/
def deserializePortfolio : Json → Option (List Holding)
  | .arr l => l.mapM holdingFromJson
  | _ => none

/-- One search result from the Yahoo Finance search endpoint, as the code
reads it: each field may be absent from the quote dict. -/
structure Quote where
  symbol : Option String
  shortname : Option String
  longname : Option String
  exchange : Option String
deriving DecidableEq, Repr

/-- A ticker recommendation as built by `get_ticker_recommendations`. -/
structure Recommendation where
  symbol : String
  name : String
  exchange : String
deriving DecidableEq, Repr

/-- The per-quote body of the loop in src/finance.py lines 59-73:
`quote.get('symbol', '')`, `quote.get('shortname', quote.get('longname',
''))`, `quote.get('exchange', 'Unknown')`; the NSE/BSE/BOM branches
rewrite the symbol to itself and are kept as the identity they are. -/
def mkRecommendation (q : Quote) : Recommendation :=
  let symbol := q.symbol.getD ""
  let name := q.shortname.getD (q.longname.getD "")
  let exchange := q.exchange.getD "Unknown"
  let symbol :=
    if exchange = "NSE" then symbol
    else if exchange = "BSE" ∨ exchange = "BOM" then symbol
    else symbol
  ⟨symbol, name, exchange⟩

/-- `get_ticker_recommendations` of src/finance.py lines 50-77: on any
exception during the request (`.error`), report and return `[]`;
otherwise map the first 8 quotes (`data.get('quotes', [])[:8]`) to
recommendations. -/
def get_ticker_recommendations (resp : Except String (List Quote)) :
    List Recommendation :=
  match resp with
  | .error _ => []
  | .ok quotes => (quotes.take 8).map mkRecommendation

/-! ## Theorems -/

/-- Claim C1: for every holdings list and every price lookup,
refresh_prices keeps the list the same length (never removes a holding);
at each position, when the lookup succeeds with price p the holding's
current_price is replaced by p (all other fields unchanged), and when the
lookup fails or returns nothing the holding is returned unchanged, its
previous current_price intact; a failure at one position never affects
the others, and the refreshed list is returned. -/
theorem refresh_prices_spec (hs : List Holding)
    (lookup : String → Option ℚ) :
    (refresh_prices hs lookup).length = hs.length ∧
    ∀ i, (hi : i < hs.length) →
      (∀ p, lookup (hs.get ⟨i, hi⟩).symbol = some p →
        (refresh_prices hs lookup)[i]? =
          some { hs.get ⟨i, hi⟩ with current_price := p }) ∧
      (lookup (hs.get ⟨i, hi⟩).symbol = none →
        (refresh_prices hs lookup)[i]? = some (hs.get ⟨i, hi⟩)) := by
  refine ⟨List.length_map _ _, fun i hi => ⟨fun p hp => ?_, fun hp => ?_⟩⟩ <;>
    simp [refresh_prices, List.getElem?_map,
      List.getElem?_eq_getElem hi, List.get_eq_getElem] at hp ⊢ <;>
    simp [hp]

/-- Witness for C1: a two-holding portfolio where the lookup fails for
symbol X and succeeds with price 5 for symbol Y; X keeps its old price
exactly, Y is updated. -/
theorem refresh_prices_spec_witness :
    (refresh_prices
        [⟨"X", "X Corp", 10, 100, "2023-01-01", 50, "NSE"⟩,
         ⟨"Y", "Y Corp", 2, 30, "2023-01-02", 40, "NYQ"⟩]
        (fun s => if s = "X" then none else some 5))[0]? =
      some ⟨"X", "X Corp", 10, 100, "2023-01-01", 50, "NSE"⟩ ∧
    (refresh_prices
        [⟨"X", "X Corp", 10, 100, "2023-01-01", 50, "NSE"⟩,
         ⟨"Y", "Y Corp", 2, 30, "2023-01-02", 40, "NYQ"⟩]
        (fun s => if s = "X" then none else some 5))[1]? =
      some ⟨"Y", "Y Corp", 2, 30, "2023-01-02", 5, "NYQ"⟩ :=
  ⟨((refresh_prices_spec _ _).2 0 (by decide)).2 (by decide),
   ((refresh_prices_spec _ _).2 1 (by decide)).1 5 (by decide)⟩

/-- Claim C2: each derived row is computed exactly as
investment = quantity * buy_price, current_value = quantity *
current_price, pnl = current_value - investment, and pnl_pct =
pnl / investment * 100 (finite whenever investment is nonzero), row-wise
in the input order; concretely, for the holding A with quantity 10,
buy_price 100 and current_price 100 the row is (1000, 1000, 0, 0), and
with current_price 150 it is (1000, 1500, 500, 50). -/
theorem computeRows_formulas :
    (∀ h : Holding,
      (computeRow h).investment = (h.quantity : ℚ) * h.buy_price ∧
      (computeRow h).current_value = (h.quantity : ℚ) * h.current_price ∧
      (computeRow h).pnl =
        (computeRow h).current_value - (computeRow h).investment ∧
      ((computeRow h).investment ≠ 0 →
        (computeRow h).pnl_pct =
          .finite ((computeRow h).pnl / (computeRow h).investment * 100))) ∧
    (∀ hs : List Holding, computeRows hs = hs.map computeRow) ∧
    computeRows [⟨"A", "", 10, 100, "", 100, ""⟩] =
      [⟨1000, 1000, 0, .finite 0⟩] ∧
    computeRows [⟨"A", "", 10, 100, "", 150, ""⟩] =
      [⟨1000, 1500, 500, .finite 50⟩] := by
  refine ⟨fun h => ⟨rfl, rfl, rfl, fun hinv => ?_⟩, fun hs => rfl,
    by norm_num [computeRows, computeRow, pdiv, PFloat.mulConst],
    by norm_num [computeRows, computeRow, pdiv, PFloat.mulConst]⟩
  simp only [computeRow] at hinv ⊢
  simp [pdiv, PFloat.mulConst, hinv]

/-- Witness for C2: the pnl_pct formula instantiated at the concrete
holding A with current_price 150, where investment = 1000 is nonzero. -/
theorem computeRows_formulas_witness :
    (computeRow ⟨"A", "", 10, 100, "", 150, ""⟩).pnl_pct =
      .finite ((computeRow ⟨"A", "", 10, 100, "", 150, ""⟩).pnl /
        (computeRow ⟨"A", "", 10, 100, "", 150, ""⟩).investment * 100) :=
  (computeRows_formulas.1 ⟨"A", "", 10, 100, "", 150, ""⟩).2.2.2
    (by norm_num [computeRow])

/-- Counterexample to claim C3 as stated: the pnl_pct division is not
guarded.  The holding Z with quantity 0 has investment = 0, and the row
computation divides by it anyway, producing the non-finite pandas value
NaN; so it is not the case that every holding gets a finite (guarded)
pnl_pct. -/
theorem computeRow_guard_counterexample :
    (computeRow ⟨"Z", "", 0, 5, "", 7, ""⟩).investment = 0 ∧
    (computeRow ⟨"Z", "", 0, 5, "", 7, ""⟩).pnl_pct = PFloat.nan ∧
    ¬ ∀ h : Holding, ∃ q : ℚ,
      (computeRow h).pnl_pct = PFloat.finite q := by
  have hnan : (computeRow ⟨"Z", "", 0, 5, "", 7, ""⟩).pnl_pct =
      PFloat.nan := by
    norm_num [computeRow, pdiv, PFloat.mulConst]
  refine ⟨by norm_num [computeRow], hnan, fun hall => ?_⟩
  obtain ⟨q, hq⟩ := hall ⟨"Z", "", 0, 5, "", 7, ""⟩
  rw [hnan] at hq
  exact PFloat.noConfusion hq

/-- Claim C3 (amended): the division in the pnl_pct computation is NOT
guarded; for a holding with investment = 0 it is performed anyway, giving
the non-finite pandas result (NaN when pnl = 0, +inf when pnl > 0, -inf
when pnl < 0) instead of a number.  The computation nevertheless does not
fault: it is total, every row is produced (same length, in order), the
other three fields of a zero-investment row are still computed, and every
row with nonzero investment gets a finite pnl_pct. -/
theorem computeRows_divzero_behavior (hs : List Holding) :
    (computeRows hs).length = hs.length ∧
    ∀ h : Holding,
      ((computeRow h).investment = 0 →
        ((computeRow h).pnl = 0 →
          (computeRow h).pnl_pct = PFloat.nan) ∧
        (0 < (computeRow h).pnl →
          (computeRow h).pnl_pct = PFloat.posInf) ∧
        ((computeRow h).pnl < 0 →
          (computeRow h).pnl_pct = PFloat.negInf)) ∧
      ((computeRow h).investment ≠ 0 →
        ∃ q : ℚ, (computeRow h).pnl_pct = PFloat.finite q) := by
  have e : ∀ h : Holding, (computeRow h).pnl_pct =
      (pdiv (computeRow h).pnl (computeRow h).investment).mulConst 100 :=
    fun h => rfl
  refine ⟨List.length_map _ _, fun h => ⟨fun hinv => ?_, fun hinv => ?_⟩⟩
  · rw [e, hinv]
    refine ⟨fun hp => ?_, fun hp => ?_, fun hp => ?_⟩
    · rw [hp]
      norm_num [pdiv, PFloat.mulConst]
    · have h1 : (computeRow h).pnl ≠ 0 := hp.ne'
      norm_num [pdiv, PFloat.mulConst, h1, hp]
    · have h1 : (computeRow h).pnl ≠ 0 := hp.ne
      have h2 : ¬ 0 < (computeRow h).pnl := not_lt.mpr hp.le
      norm_num [pdiv, PFloat.mulConst, h1, h2]
  · exact ⟨(computeRow h).pnl / (computeRow h).investment * 100, by
      rw [e]
      simp [pdiv, PFloat.mulConst, hinv]⟩

/-- Witness for the amended C3: the zero-quantity holding Z has
investment 0 and pnl 0, and its pnl_pct comes out as NaN; the computation
returns (does not fault). -/
theorem computeRows_divzero_behavior_witness :
    (computeRows [(⟨"Z", "", 0, 5, "", 7, ""⟩ : Holding)]).length = 1 ∧
    (computeRow ⟨"Z", "", 0, 5, "", 7, ""⟩).pnl_pct = PFloat.nan :=
  ⟨(computeRows_divzero_behavior [⟨"Z", "", 0, 5, "", 7, ""⟩]).1,
   (((computeRows_divzero_behavior []).2 ⟨"Z", "", 0, 5, "", 7, ""⟩).1
      (by norm_num [computeRow])).1 (by norm_num [computeRow])⟩

/-- Claim C4: for every portfolio and every index outside [0, len), the
remove handler rejects the request — the removal is not performed (the
failure path) and the portfolio is left completely unchanged. -/
theorem removeSelected_out_of_range (p : List Holding) (i : Int)
    (h : ¬ (0 ≤ i ∧ i < (p.length : Int))) :
    removeSelected p i = (p, false) := by
  simp only [removeSelected, if_neg h]

/-- Witness for C4: removing index 5 from a one-element portfolio is
rejected and leaves the portfolio as it was. -/
theorem removeSelected_out_of_range_witness :
    removeSelected [⟨"X", "X Corp", 10, 100, "2023-01-01", 50, "NSE"⟩] 5 =
      ([⟨"X", "X Corp", 10, 100, "2023-01-01", 50, "NSE"⟩], false) :=
  removeSelected_out_of_range _ 5 (by decide)

/-- Counterexample to claim C5 as stated: the Add-to-Portfolio handler
does not reject a record with quantity <= 0 — the record A below has
quantity 0, yet the handler appends it and reports success, changing the
holdings sequence instead of failing with a validation error. -/
theorem addToPortfolio_validation_counterexample :
    (⟨"A", "", 0, 5, "", 5, ""⟩ : Holding).quantity ≤ 0 ∧
    addToPortfolio [] ⟨"A", "", 0, 5, "", 5, ""⟩ =
      ([⟨"A", "", 0, 5, "", 5, ""⟩], true) := by
  exact ⟨by decide, by simp [addToPortfolio]⟩

/-- Claim C5 (amended): the handler itself validates only the symbol: a
record with empty symbol is rejected (error shown, holdings unchanged),
and any record with non-empty symbol is appended at the end and reported
as a success, regardless of the signs of quantity and buy_price — the
positivity of those two fields is enforced upstream by the input widgets
(quantity has min_value 1, price per share has min_value 0.01), not by
the append handler. -/
theorem addToPortfolio_spec (p : List Holding) (r : Holding) :
    (r.symbol = "" → addToPortfolio p r = (p, false)) ∧
    (r.symbol ≠ "" → addToPortfolio p r = (p ++ [r], true)) := by
  constructor <;> intro h <;> simp [addToPortfolio, h]

/-- Witness for the amended C5: appending a record with symbol A to the
empty portfolio succeeds and the record ends up at the end. -/
theorem addToPortfolio_spec_witness :
    addToPortfolio [] ⟨"A", "A Corp", 3, 20, "2023-02-01", 25, "NYQ"⟩ =
      ([⟨"A", "A Corp", 3, 20, "2023-02-01", 25, "NYQ"⟩], true) :=
  (addToPortfolio_spec [] ⟨"A", "A Corp", 3, 20, "2023-02-01", 25, "NYQ"⟩).2
    (by decide)

/-- Claim C7: aggregate of the empty row sequence is all zeros — the
total_pnl_pct division is guarded (defined as 0 when total_investment is
0), so an empty portfolio produces zero totals and no fault. -/
theorem aggregate_empty : aggregate [] = ⟨0, 0, 0, 0⟩ := by
  simp [aggregate]

/-- Serialization of one record inverts to the record itself. -/
theorem holdingFromJson_holdingToJson (h : Holding) :
    holdingFromJson (holdingToJson h) = some h := by
  cases h
  rfl

/-- Claim C9: the save/load round trip is lossless — serializing any
holdings sequence to the persisted JSON array (dates already ISO-8601
strings, numbers as decimals) and deserializing it back yields exactly
the original sequence. -/
theorem portfolio_round_trip (hs : List Holding) :
    deserializePortfolio (serializePortfolio hs) = some hs := by
  induction hs with
  | nil => rfl
  | cons h t ih =>
    simp only [serializePortfolio, deserializePortfolio, List.map_cons,
      List.mapM_cons, holdingFromJson_holdingToJson] at *
    rw [ih]
    rfl

/-- Filtering an index-decorated list by an index bound below every
decoration keeps everything. -/
theorem enumFrom_filter_ne_all {α : Type} :
    ∀ (l : List α) (k n : Nat), n < k →
      ((l.enumFrom k).filter fun q => q.1 ≠ n).map Prod.snd = l
  | [], _, _, _ => by simp
  | a :: l, k, n, h => by
    rw [List.enumFrom_cons,
      List.filter_cons_of_pos (by simpa using by omega), List.map_cons,
      enumFrom_filter_ne_all l (k + 1) n (by omega)]

/-- The comprehension of the remove handler, in general form: dropping
the entry whose enumeration index is k + n from a list enumerated from k
removes exactly the element at position n, keeping the rest in order. -/
theorem enumFrom_filter_ne_take_drop {α : Type} :
    ∀ (l : List α) (k n : Nat),
      ((l.enumFrom k).filter fun q => q.1 ≠ k + n).map Prod.snd =
        l.take n ++ l.drop (n + 1)
  | [], _, _ => by simp
  | a :: l, k, 0 => by
    rw [List.enumFrom_cons,
      List.filter_cons_of_neg (by simp)]
    simpa using enumFrom_filter_ne_all l (k + 1) k (by omega)
  | a :: l, k, n + 1 => by
    rw [List.enumFrom_cons,
      List.filter_cons_of_pos (by simp), List.map_cons,
      show k + (n + 1) = (k + 1) + n from by omega,
      enumFrom_filter_ne_take_drop l (k + 1) n,
      List.take_succ_cons, List.drop_succ_cons]
    simp

/-- Claim C8: for every portfolio and every in-range index i, the remove
handler produces the sequence with exactly the element at position i
omitted — one shorter, all other elements in their original relative
order (it equals take i followed by drop (i+1)). -/
theorem removeSelected_in_range (p : List Holding) (i : Nat)
    (h : i < p.length) :
    (removeSelected p (i : Int)).1 = p.take i ++ p.drop (i + 1) ∧
    (removeSelected p (i : Int)).1.length = p.length - 1 := by
  have hc : (0 : Int) ≤ (i : Int) ∧ (i : Int) < (p.length : Int) :=
    ⟨Int.ofNat_nonneg i, by exact_mod_cast h⟩
  have e1 : (removeSelected p (i : Int)).1 =
      ((p.enum).filter fun q => (q.1 : Int) ≠ (i : Int)).map Prod.snd := by
    simp only [removeSelected, if_pos hc]
  have e2 : ((p.enum).filter fun q => (q.1 : Int) ≠ (i : Int)) =
      (p.enum).filter fun q => q.1 ≠ i :=
    List.filter_congr fun a _ => decide_eq_decide.mpr (by omega)
  have e3 : ((p.enum).filter fun q => q.1 ≠ i).map Prod.snd =
      p.take i ++ p.drop (i + 1) := by
    simpa using enumFrom_filter_ne_take_drop p 0 i
  have e : (removeSelected p (i : Int)).1 = p.take i ++ p.drop (i + 1) := by
    rw [e1, e2, e3]
  refine ⟨e, ?_⟩
  rw [e]
  simp only [List.length_append, List.length_take, List.length_drop]
  omega

/-- Witness for C8: removing index 1 from a three-element portfolio
leaves the first and third elements, in order, and length 2. -/
theorem removeSelected_in_range_witness :
    (removeSelected
        [⟨"X", "", 1, 10, "", 10, ""⟩, ⟨"Y", "", 2, 20, "", 20, ""⟩,
         ⟨"Z", "", 3, 30, "", 30, ""⟩] ((1 : Nat) : Int)).1 =
      [⟨"X", "", 1, 10, "", 10, ""⟩, ⟨"Z", "", 3, 30, "", 30, ""⟩] ∧
    (removeSelected
        [⟨"X", "", 1, 10, "", 10, ""⟩, ⟨"Y", "", 2, 20, "", 20, ""⟩,
         ⟨"Z", "", 3, 30, "", 30, ""⟩] ((1 : Nat) : Int)).1.length = 2 :=
  (removeSelected_in_range
    [⟨"X", "", 1, 10, "", 10, ""⟩, ⟨"Y", "", 2, 20, "", 20, ""⟩,
     ⟨"Z", "", 3, 30, "", 30, ""⟩] 1 (by decide))

/-- A list's optional last element, when present, is a member. -/
theorem getLast?_mem_self {α : Type} {l : List α} {a : α}
    (h : l.getLast? = some a) : a ∈ l := by
  obtain ⟨hne, heq⟩ :=
    List.mem_getLast?_eq_getLast (Option.mem_def.mpr h)
  rw [heq]
  exact List.getLast_mem hne

/-- In a list sorted strictly by a key, the last element has the largest
key. -/
theorem sorted_getLast_max {α : Type} (key : α → Int) (l : List α) :
    l.Pairwise (fun a b => key a < key b) →
    ∀ s, l.getLast? = some s → ∀ t ∈ l, key t ≤ key s := by
  induction l with
  | nil => intro _ s hs; simp at hs
  | cons a l ih =>
    intro hp s hs t ht
    obtain ⟨ha, hl⟩ := List.pairwise_cons.mp hp
    cases l with
    | nil =>
      simp at hs ht
      rw [ht, hs]
    | cons b l2 =>
      rw [List.getLast?_cons_cons] at hs
      rcases List.mem_cons.mp ht with rfl | htl
      · exact (ha s (getLast?_mem_self hs)).le
      · exact ih hl s hs t htl

/-- The two filters of get_historical_price (the download window
[date-7, date+1) and the index-at-most-date cut) collapse to the single
window date-7 <= session <= date, and the function returns the close of
the last entry of that window. -/
theorem get_historical_price_eq (hist : List (Int × ℚ)) (date : Int) :
    get_historical_price (some hist) date =
      ((hist.filter fun s => date - 7 ≤ s.1 ∧ s.1 ≤ date).getLast?).map
        Prod.snd := by
  have hfe : ((hist.filter fun s => date - 7 ≤ s.1 ∧ s.1 < date + 1).filter
      fun s => s.1 ≤ date) =
      hist.filter fun s => date - 7 ≤ s.1 ∧ s.1 ≤ date := by
    rw [List.filter_filter]
    refine List.filter_congr fun a _ => ?_
    rw [← Bool.decide_and]
    exact decide_eq_decide.mpr (by omega)
  simp only [get_historical_price, yf_download]
  by_cases h1 :
      (hist.filter fun s => date - 7 ≤ s.1 ∧ s.1 < date + 1).isEmpty
  · rw [List.isEmpty_iff] at h1
    rw [← hfe, h1]
    simp [h1]
  · by_cases h2 :
        ((hist.filter fun s => date - 7 ≤ s.1 ∧ s.1 < date + 1).filter
          fun s => s.1 ≤ date).isEmpty
    · have h2' := h2
      rw [List.isEmpty_iff] at h2'
      rw [← hfe, h2']
      simp [h1, h2]
    · rw [← hfe]
      simp only [h1, h2, Bool.not_true, Bool.not_false, if_true, if_false]
      cases hL :
          ((hist.filter fun s => date - 7 ≤ s.1 ∧ s.1 < date + 1).filter
            fun s => s.1 ≤ date).getLast? <;> simp

/-- Claim C6: over a provider series sorted by date,
get_historical_price returns nothing exactly when no trading session
falls in the 7-calendar-day look-back window [date-7, date] (also when
the provider fails outright), and whenever it returns a price, that
price is the close of the most recent session on or before the requested
date within that window — never a fabricated value. -/
theorem get_historical_price_spec (hist : List (Int × ℚ)) (date : Int)
    (hsort : hist.Pairwise fun a b => a.1 < b.1) :
    get_historical_price none date = none ∧
    (get_historical_price (some hist) date = none ↔
      ∀ s ∈ hist, ¬ (date - 7 ≤ s.1 ∧ s.1 ≤ date)) ∧
    (∀ p, get_historical_price (some hist) date = some p →
      ∃ s ∈ hist, s.2 = p ∧ date - 7 ≤ s.1 ∧ s.1 ≤ date ∧
        ∀ t ∈ hist, date - 7 ≤ t.1 → t.1 ≤ date → t.1 ≤ s.1) := by
  refine ⟨rfl, ?_, ?_⟩
  · rw [get_historical_price_eq, Option.map_eq_none',
      List.getLast?_eq_none_iff, List.filter_eq_nil_iff]
    constructor <;> intro h s hs <;> simpa using h s hs
  · intro p hp
    rw [get_historical_price_eq] at hp
    obtain ⟨s, hs, rfl⟩ := Option.map_eq_some'.mp hp
    have hmem := getLast?_mem_self hs
    rw [List.mem_filter] at hmem
    obtain ⟨hsh, hw⟩ := hmem
    have hw' : date - 7 ≤ s.1 ∧ s.1 ≤ date := by simpa using hw
    refine ⟨s, hsh, rfl, hw'.1, hw'.2, fun t ht h7 hd => ?_⟩
    have hps : ((hist.filter fun s => date - 7 ≤ s.1 ∧ s.1 ≤ date).Pairwise
        fun a b => a.1 < b.1) :=
      List.Pairwise.sublist (List.filter_sublist hist) hsort
    have htm : t ∈ hist.filter fun s => date - 7 ≤ s.1 ∧ s.1 ≤ date := by
      rw [List.mem_filter]
      refine ⟨ht, ?_⟩
      rw [decide_eq_true_eq]
      exact ⟨h7, hd⟩
    exact sorted_getLast_max Prod.fst _ hps s hs t htm

/-- Witness for C6: for the series with sessions on days 5, 8 and 12 and
requested date 10, the returned price 20 is the close of day 8, the most
recent session in the window [3, 10]. -/
theorem get_historical_price_spec_witness :
    ∃ s ∈ [((5 : Int), (10 : ℚ)), (8, 20), (12, 30)], s.2 = 20 ∧
      (10 : Int) - 7 ≤ s.1 ∧ s.1 ≤ 10 ∧
      ∀ t ∈ [((5 : Int), (10 : ℚ)), (8, 20), (12, 30)],
        10 - 7 ≤ t.1 → t.1 ≤ 10 → t.1 ≤ s.1 :=
  (get_historical_price_spec [(5, 10), (8, 20), (12, 30)] 10
    (by decide)).2.2 20 (by decide)

/-- Claim C10: the ticker search returns at most 8 recommendations; on a
provider error it returns the empty list (never raises — the function is
total); and every recommendation returned carries the provider quote's
symbol, display name (shortname, falling back to longname, falling back
to empty) and exchange (falling back to Unknown). -/
theorem get_ticker_recommendations_spec
    (resp : Except String (List Quote)) :
    (get_ticker_recommendations resp).length ≤ 8 ∧
    (∀ e, resp = .error e → get_ticker_recommendations resp = []) ∧
    ∀ r ∈ get_ticker_recommendations resp, ∃ quotes, resp = .ok quotes ∧
      ∃ q ∈ quotes, r.symbol = q.symbol.getD "" ∧
        r.name = q.shortname.getD (q.longname.getD "") ∧
        r.exchange = q.exchange.getD "Unknown" := by
  refine ⟨?_, ?_, ?_⟩
  · cases resp with
    | error e => simp [get_ticker_recommendations]
    | ok quotes =>
      simp only [get_ticker_recommendations, List.length_map]
      exact List.length_take_le 8 quotes
  · intro e he
    rw [he]
    rfl
  · intro r hr
    cases resp with
    | error e => simp [get_ticker_recommendations] at hr
    | ok quotes =>
      refine ⟨quotes, rfl, ?_⟩
      simp only [get_ticker_recommendations, List.mem_map] at hr
      obtain ⟨q, hq, rfl⟩ := hr
      refine ⟨q, List.mem_of_mem_take hq, ?_, rfl, rfl⟩
      simp only [mkRecommendation]
      split_ifs <;> rfl

/-- Witness for C10: a failed search request yields the empty
recommendation list. -/
theorem get_ticker_recommendations_spec_witness :
    get_ticker_recommendations (.error "search error") = [] :=
  (get_ticker_recommendations_spec (.error "search error")).2.1
    "search error" rfl

end FinanceTracker
